import Mathlib

/-!
Shallow embedding of the kahip-rs safe wrapper (src/src/lib.rs).

The crate is a thin, idiomatic wrapper over the external KaHIP partitioning
engine.  The wrapper's own behaviour consists of:
  * `Graph::new`, which validates the CSR structure (panics on violation),
  * `Graph::set_vwgt` / `Graph::set_adjwgt`, which validate and attach
    optional weight buffers (panicking setters),
  * `Graph::partition`, which marshals the buffers into raw pointers
    (null for absent weights) and performs exactly one call of the external
    routine `kaffpa`, returning the part assignment and the edge cut.

Panics are modelled as `Option.none`.  Rust slices of `c_int` are modelled
as `List Int` together with a well-formedness predicate (`SliceOk`) stating
what Rust guarantees for every real slice of `c_int`: each element fits in
32-bit two's complement, and the byte size of the allocation is at most
`isize::MAX`, so the length is below `2 ^ 61`.

The external engine is not part of the crate; the spec treats it as an
opaque, stateless collaborator with a fixed contract, so it is modelled
here as a structure bundling an arbitrary stateless function together with
the contract the spec ascribes to it.  The wrapper never performs any
floating-point arithmetic on the `imbalance` argument (it is passed through
untouched), so the `f64` carrier is kept as an arbitrary type parameter
`Fl`.
-/

/-!
The element type of all graph buffers is `Idx = std::os::raw::c_int`,
modelled throughout as `Int`; the `SliceOk` predicate carries the 32-bit
range constraint where it matters.
-/

/-- Rust's `as usize` cast applied to a `c_int` value: two's-complement
reinterpretation after sign extension, i.e. reduction modulo `2 ^ 64`. -/
def usizeOfIdx (x : Int) : Nat :=
  (x % (2 ^ 64 : Int)).toNat

/-- Rust's `as Idx` (`as i32`) cast applied to a `usize` value:
wrap into the signed 32-bit range. -/
def intAsI32 (x : Int) : Int :=
  (x + 2 ^ 31) % 2 ^ 32 - 2 ^ 31

/-- A 32-bit `c_int` value, as every element of a Rust `&[c_int]` is. -/
def IdxOk (x : Int) : Prop :=
  -(2 ^ 31) ≤ x ∧ x < 2 ^ 31

/-- What Rust guarantees of every slice `&[c_int]`: elements are 32-bit
values and the allocation's byte size is at most `isize::MAX`, hence fewer
than `2 ^ 61` four-byte elements. -/
def SliceOk (l : List Int) : Prop :=
  (∀ x ∈ l, IdxOk x) ∧ l.length < 2 ^ 61

instance (l : List Int) : Decidable (SliceOk l) := by
  unfold SliceOk IdxOk; infer_instance

/-- The `Mode` enumeration of the wrapper: six partitioning strategies. -/
inductive Mode where
  | Fast
  | Eco
  | Strong
  | FastSocial
  | EcoSocial
  | StrongSocial
deriving DecidableEq

/-- Modelled from the spec: the numeric payload of each `Mode` variant is a
constant sourced from the external engine's header (`FAST`, `ECO`, …); the
generated declaration layer is not under src/, so the values are taken from
the spec's description of the engine's constants. -/
def Mode.toIdx : Mode → Int
  | .Fast => 0
  | .Eco => 1
  | .Strong => 2
  | .FastSocial => 3
  | .EcoSocial => 4
  | .StrongSocial => 5

/-- The `Graph` builder structure: a view over the caller's CSR buffers,
with optional vertex- and edge-weight buffers. -/
structure Graph where
  xadj : List Int
  adjncy : List Int
  vwgt : Option (List Int)
  adjwgt : Option (List Int)
deriving DecidableEq

/-- Embedding of `Graph::new`.  The source asserts `xadj.len() != 0` and
then `adjncy.len() == *xadj.last().unwrap() as usize`; an assertion failure
(panic) is `none`. -/
def Graph.new (xadj adjncy : List Int) : Option Graph :=
  if xadj.length = 0 then none
  else
    match xadj.getLast? with
    | none => none
    | some last =>
      if adjncy.length = usizeOfIdx last then
        some { xadj := xadj, adjncy := adjncy, adjwgt := none, vwgt := none }
      else none

/-- Embedding of `Graph::set_vwgt`: asserts
`vwgt.len() == self.xadj.len() - 1`, then stores the buffer. -/
def Graph.set_vwgt (g : Graph) (vwgt : List Int) : Option Graph :=
  if vwgt.length = g.xadj.length - 1 then
    some { g with vwgt := some vwgt }
  else none

/-- Embedding of `Graph::set_adjwgt`: evaluates
`(*self.xadj.last().unwrap()).try_into().unwrap()` — `last().unwrap()`
panics on an empty `xadj`, and `try_into::<usize>().unwrap()` panics on a
negative value — and then asserts that `adjwgt.len()` equals it. -/
def Graph.set_adjwgt (g : Graph) (adjwgt : List Int) : Option Graph :=
  match g.xadj.getLast? with
  | none => none
  | some last =>
    if 0 ≤ last then
      if adjwgt.length = last.toNat then
        some { g with adjwgt := some adjwgt }
      else none
    else none

/-- The argument list marshalled for the external call, with raw pointers
modelled by values: a null pointer for an absent weight buffer is `none`.
`Fl` is the carrier of `f64` values (never computed with by the wrapper). -/
structure KaffpaCall (Fl : Type) where
  nvtxs : Int
  vwgt : Option (List Int)
  xadj : List Int
  adjwgt : Option (List Int)
  adjncy : List Int
  n_parts : Int
  imbalance : Fl
  suppress_output : Bool
  seed : Int
  mode : Int
deriving DecidableEq

/-- What one invocation of the external routine writes back through its
pointer arguments: the entries deposited in the part buffer (from index 0),
the edge cut, and the final values left in the `n_parts` and `imbalance`
locations (the engine's signature lets it adjust both in place). -/
structure KaffpaReturn (Fl : Type) where
  partWrites : List Int
  edgecut : Int
  n_parts_out : Int
  imbalance_out : Fl
deriving DecidableEq

/-- Modelled from the spec: the external engine `kaffpa` is not code of
this repository; the spec treats it as a stateless function with a fixed
contract — it fills one part entry per vertex, and every part index it
writes lies in the half-open interval from 0 to the requested part count
(stated for a positive requested part count, which the spec requires of
callers and the wrapper does not validate). -/
structure KaffpaEngine (Fl : Type) where
  run : KaffpaCall Fl → KaffpaReturn Fl
  writes_all : ∀ c, (run c).partWrites.length = (c.nvtxs).toNat
  part_range : ∀ c, 0 < c.n_parts →
    ∀ p ∈ (run c).partWrites, 0 ≤ p ∧ p < c.n_parts

/-- The effect of the engine writing `writes` through the part-buffer
pointer, starting at offset 0, into the buffer `buf`: contents are
overwritten position by position, and the buffer's length is untouched
(a raw-pointer write cannot change a `Vec`'s length). -/
def writeBuf (buf writes : List Int) : List Int :=
  writes.take buf.length ++ buf.drop writes.length

/-- The marshalling step of `Graph::partition`: the argument record handed
to the external routine.  `nvtxs` is `self.xadj.len() as Idx - 1` with the
release-mode wrapping semantics of the `i32` cast and subtraction;
absent weight buffers become null pointers (`none`). -/
def Graph.kaffpaCall {Fl : Type} (g : Graph) (n_parts : Int) (imbalance : Fl)
    (suppress_output : Bool) (seed : Int) (mode : Mode) : KaffpaCall Fl :=
  { nvtxs := intAsI32 (intAsI32 (g.xadj.length : Int) - 1)
    vwgt := g.vwgt
    xadj := g.xadj
    adjwgt := g.adjwgt
    adjncy := g.adjncy
    n_parts := n_parts
    imbalance := imbalance
    suppress_output := suppress_output
    seed := seed
    mode := mode.toIdx }

/-- Embedding of `Graph::partition`: allocate a zero-initialised part
buffer of length `xadj.len() - 1`, invoke the external routine exactly once
on the marshalled arguments, and return the (now fully written) part buffer
together with the edge cut; the final values of the local `n_parts` and
`imbalance` cells are discarded. -/
def Graph.partition {Fl : Type} (g : Graph) (e : KaffpaEngine Fl)
    (n_parts : Int) (imbalance : Fl) (suppress_output : Bool) (seed : Int)
    (mode : Mode) : List Int × Int :=
  let c := g.kaffpaCall n_parts imbalance suppress_output seed mode
  let buf : List Int := List.replicate (g.xadj.length - 1) 0
  let r := e.run c
  (writeBuf buf r.partWrites, r.edgecut)

/-- The structural invariant of a validated graph, as the spec states it:
`xadj` is non-empty, `adjncy`'s length equals `xadj`'s last element, an
attached vertex-weight buffer has length `xadj.len() - 1`, and an attached
edge-weight buffer has length equal to `xadj`'s last element (that is, to
`adjncy`'s length). -/
def Graph.WF (g : Graph) : Prop :=
  g.xadj ≠ [] ∧
  g.xadj.getLast? = some (g.adjncy.length : Int) ∧
  (∀ w, g.vwgt = some w → w.length = g.xadj.length - 1) ∧
  (∀ w, g.adjwgt = some w → w.length = g.adjncy.length)

instance (g : Graph) : Decidable (Graph.WF g) := by
  unfold Graph.WF; infer_instance

/-- The graphs a client can actually hold: those produced by `Graph::new`
from real `c_int` slices, possibly refined by the two setters.  The fields
of `Graph` are private in the source, so these are the only ways to obtain
one. -/
inductive Graph.Reachable : Graph → Prop where
  | new (xadj adjncy : List Int) (g : Graph) : SliceOk xadj → SliceOk adjncy →
      Graph.new xadj adjncy = some g → Graph.Reachable g
  | vwgt (g g2 : Graph) (w : List Int) : Graph.Reachable g →
      g.set_vwgt w = some g2 → Graph.Reachable g2
  | adjwgt (g g2 : Graph) (w : List Int) : Graph.Reachable g →
      g.set_adjwgt w = some g2 → Graph.Reachable g2

/-! ### Helper lemmas -/

/-- For a 32-bit value `last` and a length `n` below the Rust slice bound,
the check `n == last as usize` of the source is equivalent to the spec's
reading that the length equals the last element: a negative `last` wraps to
at least `2 ^ 64 - 2 ^ 31`, unreachable by any real slice length. -/
theorem usizeOfIdx_eq_iff (last : Int) (n : Nat) (hl : IdxOk last)
    (hn : n < 2 ^ 61) : n = usizeOfIdx last ↔ (n : Int) = last := by
  unfold IdxOk at hl
  unfold usizeOfIdx
  omega

/-- The last element of a well-formed slice is a 32-bit value. -/
theorem sliceOk_getLast (xadj : List Int) (last : Int) (hx : SliceOk xadj)
    (h : xadj.getLast? = some last) : IdxOk last := by
  apply hx.1
  have hmem : last ∈ xadj.getLast? := h ▸ rfl
  obtain ⟨hne, rfl⟩ := List.mem_getLast?_eq_getLast hmem
  exact List.getLast_mem hne

/-- Inversion for a successful `Graph::new`: the input satisfied both
assertions and the result is the graph with both weight slots empty. -/
theorem new_some_elim (xadj adjncy : List Int) (g : Graph)
    (h : Graph.new xadj adjncy = some g) :
    xadj ≠ [] ∧ g = ⟨xadj, adjncy, none, none⟩ ∧
    ∃ last, xadj.getLast? = some last ∧ adjncy.length = usizeOfIdx last := by
  unfold Graph.new at h
  split at h
  · simp at h
  · rename_i hlen
    split at h
    · simp at h
    · rename_i last hlast
      split at h
      · rename_i hcond
        injection h with h2
        refine ⟨?_, h2.symm, last, hlast, hcond⟩
        intro hnil
        subst hnil
        simp at hlen
      · simp at h

/-- Success characterisation of `Graph::new` in terms of the raw check
performed by the source. -/
theorem new_isSome_iff (xadj adjncy : List Int) :
    (Graph.new xadj adjncy).isSome = true ↔
      ∃ last, xadj.getLast? = some last ∧ adjncy.length = usizeOfIdx last := by
  constructor
  · intro h
    obtain ⟨g, hg⟩ := Option.isSome_iff_exists.mp h
    exact (new_some_elim xadj adjncy g hg).2.2
  · rintro ⟨last, hlast, hcond⟩
    have hne : xadj ≠ [] := by
      intro hnil
      subst hnil
      simp at hlast
    have hlen : ¬ xadj.length = 0 := by
      simpa [List.length_eq_zero] using hne
    unfold Graph.new
    rw [if_neg hlen, hlast]
    simp [hcond]

/-- Inversion for a successful `Graph::set_vwgt`. -/
theorem set_vwgt_some_elim (g g2 : Graph) (w : List Int)
    (h : g.set_vwgt w = some g2) :
    w.length = g.xadj.length - 1 ∧ g2 = { g with vwgt := some w } := by
  unfold Graph.set_vwgt at h
  split at h
  · rename_i hcond
    injection h with h2
    exact ⟨hcond, h2.symm⟩
  · simp at h

/-- Inversion for a successful `Graph::set_adjwgt`: the last element of
`xadj` exists, is non-negative (the `try_into` succeeded), and equals the
buffer length. -/
theorem set_adjwgt_some_elim (g g2 : Graph) (w : List Int)
    (h : g.set_adjwgt w = some g2) :
    (∃ last, g.xadj.getLast? = some last ∧ 0 ≤ last ∧ w.length = last.toNat) ∧
    g2 = { g with adjwgt := some w } := by
  unfold Graph.set_adjwgt at h
  split at h
  · simp at h
  · rename_i last hlast
    split at h
    · rename_i hpos
      split at h
      · rename_i hcond
        injection h with h2
        exact ⟨⟨last, hlast, hpos, hcond⟩, h2.symm⟩
      · simp at h
    · simp at h

/-! ### Claim theorems -/

/-- Claim C1: for every pair of integer sequences, `Graph::new` succeeds
and returns a graph if and only if `xadj` is non-empty and the length of
`adjncy` equals the last element of `xadj`; otherwise it panics (`none`)
without constructing a graph.  The hypotheses state what Rust guarantees of
any real `&[c_int]` argument. -/
theorem c1_new_succeeds_iff (xadj adjncy : List Int)
    (hx : SliceOk xadj) (ha : SliceOk adjncy) :
    (Graph.new xadj adjncy).isSome = true ↔
      (xadj ≠ [] ∧ xadj.getLast? = some ((adjncy.length : Int))) := by
  rw [new_isSome_iff]
  constructor
  · rintro ⟨last, hlast, hcond⟩
    have hio := sliceOk_getLast xadj last hx hlast
    have hcast : (adjncy.length : Int) = last :=
      (usizeOfIdx_eq_iff last adjncy.length hio ha.2).mp hcond
    refine ⟨?_, by rw [hlast, hcast]⟩
    intro hnil
    subst hnil
    simp at hlast
  · rintro ⟨hne, hlast⟩
    refine ⟨(adjncy.length : Int), hlast, ?_⟩
    have hio := sliceOk_getLast xadj _ hx hlast
    exact (usizeOfIdx_eq_iff _ _ hio ha.2).mpr rfl

/-- Claim C1, witness: a concrete one-vertex graph with one edge endpoint,
on which the characterisation is instantiated. -/
theorem c1_witness :
    SliceOk [0, 1] ∧ SliceOk [0] ∧
    ((Graph.new [0, 1] [0]).isSome = true ↔
      (([0, 1] : List Int) ≠ [] ∧
        ([0, 1] : List Int).getLast? = some ((([0] : List Int).length : Int)))) :=
  ⟨by decide, by decide, c1_new_succeeds_iff [0, 1] [0] (by decide) (by decide)⟩

/-- Claim C2, counterexample: the claim says a zero-vertex graph
(`xadj = [0]`, empty `adjncy`) must fail construction, but the source only
asserts that the `xadj` slice itself is non-empty (`assert_ne!(xadj.len(), 0)`),
and `[0]` has length one, so construction succeeds. -/
theorem c2_counterexample :
    Graph.new [0] [] = some ⟨[0], [], none, none⟩ := by decide

/-- Claim C2 (amended): constructing a graph with `xadj = [0]` and empty
`adjncy` succeeds (the zero-vertex graph is accepted and a foreign call on
it is not prevented); construction fails exactly when the `xadj` sequence
itself is empty. -/
theorem c2_zero_vertex_accepted :
    Graph.new [0] [] = some ⟨[0], [], none, none⟩ ∧
    ∀ adjncy : List Int, Graph.new [] adjncy = none :=
  ⟨by decide, fun _ => rfl⟩

/-- Claim C5: on a successfully constructed graph, `set_vwgt` succeeds
exactly when the supplied buffer's length is `xadj.len() - 1`, and a
success returns the graph with the vertex-weight slot set (the other
fields untouched). -/
theorem c5_set_vwgt_iff (xadj adjncy w : List Int) (g : Graph)
    (_hg : Graph.new xadj adjncy = some g) :
    ((g.set_vwgt w).isSome = true ↔ w.length = g.xadj.length - 1) ∧
    (g.set_vwgt w = none ∨ g.set_vwgt w = some { g with vwgt := some w }) := by
  constructor
  · unfold Graph.set_vwgt
    split
    · simp_all
    · simp_all
  · unfold Graph.set_vwgt
    split
    · exact Or.inr rfl
    · exact Or.inl rfl

/-- Claim C5, witness: instantiated on a concrete one-vertex graph. -/
theorem c5_witness :
    Graph.new [0, 1] [0] = some ⟨[0, 1], [0], none, none⟩ ∧
    ((((Graph.mk [0, 1] [0] none none).set_vwgt [7]).isSome = true ↔
        ([7] : List Int).length = (Graph.mk [0, 1] [0] none none).xadj.length - 1) ∧
      ((Graph.mk [0, 1] [0] none none).set_vwgt [7] = none ∨
        (Graph.mk [0, 1] [0] none none).set_vwgt [7] =
          some { Graph.mk [0, 1] [0] none none with vwgt := some [7] })) :=
  ⟨by decide, c5_set_vwgt_iff [0, 1] [0] [7] (Graph.mk [0, 1] [0] none none) (by decide)⟩

/-- Claim C6: on a successfully constructed graph (built from real `c_int`
slices), `set_adjwgt` succeeds exactly when the supplied buffer's length
equals the last element of `xadj`, and a success returns the graph with
the edge-weight slot set. -/
theorem c6_set_adjwgt_iff (xadj adjncy w : List Int) (g : Graph)
    (hx : SliceOk xadj) (ha : SliceOk adjncy)
    (hg : Graph.new xadj adjncy = some g) :
    ((g.set_adjwgt w).isSome = true ↔ g.xadj.getLast? = some ((w.length : Int))) ∧
    (g.set_adjwgt w = none ∨ g.set_adjwgt w = some { g with adjwgt := some w }) := by
  obtain ⟨hne, hgeq, last, hlast, hcond⟩ := new_some_elim xadj adjncy g hg
  subst hgeq
  have hio := sliceOk_getLast xadj last hx hlast
  have hcast : (adjncy.length : Int) = last :=
    (usizeOfIdx_eq_iff last adjncy.length hio ha.2).mp hcond
  have hpos : 0 ≤ last := hcast ▸ Int.natCast_nonneg adjncy.length
  constructor
  · unfold Graph.set_adjwgt
    simp only [hlast]
    rw [if_pos hpos]
    split
    · rename_i hlen
      simp only [Option.isSome_some, true_iff, Option.some.injEq]
      omega
    · rename_i hlen
      simp only [Option.isSome_none, Bool.false_eq_true, false_iff, Option.some.injEq]
      omega
  · unfold Graph.set_adjwgt
    simp only [hlast]
    rw [if_pos hpos]
    split
    · exact Or.inr rfl
    · exact Or.inl rfl

/-- Claim C6, witness: instantiated on a concrete one-vertex graph with one
edge endpoint. -/
theorem c6_witness :
    SliceOk [0, 1] ∧ SliceOk [0] ∧
    Graph.new [0, 1] [0] = some ⟨[0, 1], [0], none, none⟩ ∧
    ((((Graph.mk [0, 1] [0] none none).set_adjwgt [3]).isSome = true ↔
        (Graph.mk [0, 1] [0] none none).xadj.getLast? = some ((([3] : List Int).length : Int))) ∧
      ((Graph.mk [0, 1] [0] none none).set_adjwgt [3] = none ∨
        (Graph.mk [0, 1] [0] none none).set_adjwgt [3] =
          some { Graph.mk [0, 1] [0] none none with adjwgt := some [3] })) :=
  ⟨by decide, by decide, by decide,
    c6_set_adjwgt_iff [0, 1] [0] [3] (Graph.mk [0, 1] [0] none none)
      (by decide) (by decide) (by decide)⟩

/-- A simple engine satisfying the spec's contract: it writes part 0 for
every vertex, reports an edge cut of 0 and leaves the adjustable locations
unchanged.  Used only to instantiate theorems at concrete inputs. -/
def zeroEngine : KaffpaEngine Int where
  run c :=
    { partWrites := List.replicate c.nvtxs.toNat 0
      edgecut := 0
      n_parts_out := c.n_parts
      imbalance_out := c.imbalance }
  writes_all c := List.length_replicate c.nvtxs.toNat 0
  part_range c h p hp := by
    have h0 := List.eq_of_mem_replicate hp
    subst h0
    exact ⟨le_refl 0, h⟩

/-- An engine that behaves like `zeroEngine` on the part assignment and the
edge cut but adjusts the `n_parts` and `imbalance` locations in place. -/
def shiftEngine : KaffpaEngine Int where
  run c :=
    { partWrites := List.replicate c.nvtxs.toNat 0
      edgecut := 0
      n_parts_out := c.n_parts + 1
      imbalance_out := c.imbalance + 1 }
  writes_all c := List.length_replicate c.nvtxs.toNat 0
  part_range c h p hp := by
    have h0 := List.eq_of_mem_replicate hp
    subst h0
    exact ⟨le_refl 0, h⟩

/-- Claim C3: a successful `partition` call (with the positive part count
the spec requires of callers) returns an assignment of length exactly
`V = xadj.len() - 1` whose entries all lie in the half-open interval from 0
to `n_parts`.  The length is forced by the wrapper (the engine writes
through a pointer into a buffer the wrapper allocated with length `V`); the
range is the external engine's contract, which also covers the
zero-initialised buffer contents. -/
theorem c3_partition_length_range {Fl : Type} (e : KaffpaEngine Fl)
    (g : Graph) (n_parts : Int) (imbalance : Fl) (so : Bool) (seed : Int)
    (m : Mode) (hnp : 0 < n_parts) :
    (g.partition e n_parts imbalance so seed m).1.length = g.xadj.length - 1 ∧
    ∀ p ∈ (g.partition e n_parts imbalance so seed m).1, 0 ≤ p ∧ p < n_parts := by
  have hre : (g.partition e n_parts imbalance so seed m).1 =
      writeBuf (List.replicate (g.xadj.length - 1) 0)
        ((e.run (g.kaffpaCall n_parts imbalance so seed m)).partWrites) := rfl
  constructor
  · rw [hre]
    unfold writeBuf
    simp only [List.length_append, List.length_take, List.length_drop,
      List.length_replicate]
    omega
  · intro p hp
    rw [hre] at hp
    unfold writeBuf at hp
    rcases List.mem_append.mp hp with hp | hp
    · exact e.part_range _ hnp p (List.mem_of_mem_take hp)
    · have h0 := List.eq_of_mem_replicate (List.mem_of_mem_drop hp)
      subst h0
      exact ⟨le_refl 0, hnp⟩

/-- Claim C3, witness: a one-vertex graph partitioned into two parts by a
concrete contract-satisfying engine. -/
theorem c3_witness :
    0 < (2 : Int) ∧
    (((Graph.mk [0, 1] [0] none none).partition zeroEngine 2 (0 : Int) true 1234
        Mode.Eco).1.length = (Graph.mk [0, 1] [0] none none).xadj.length - 1 ∧
      ∀ p ∈ ((Graph.mk [0, 1] [0] none none).partition zeroEngine 2 (0 : Int) true 1234
        Mode.Eco).1, 0 ≤ p ∧ p < 2) :=
  ⟨by decide,
    c3_partition_length_range zeroEngine (Graph.mk [0, 1] [0] none none) 2 0 true 1234
      Mode.Eco (by decide)⟩

/-- Claim C4: `partition` is deterministic — two calls with identical
inputs (same graph view, including any attached weights, and the same
part count, imbalance, output flag, seed and mode) against the same
stateless engine return identical pairs.  Statelessness of the engine is
the spec's own postulate; the wrapper keeps no state of its own. -/
theorem c4_partition_deterministic {Fl : Type} (e : KaffpaEngine Fl)
    (g1 g2 : Graph) (np1 np2 : Int) (im1 im2 : Fl) (so1 so2 : Bool)
    (sd1 sd2 : Int) (m1 m2 : Mode)
    (hg : g1 = g2) (hnp : np1 = np2) (him : im1 = im2) (hso : so1 = so2)
    (hsd : sd1 = sd2) (hm : m1 = m2) :
    g1.partition e np1 im1 so1 sd1 m1 = g2.partition e np2 im2 so2 sd2 m2 := by
  subst hg hnp him hso hsd hm
  rfl

/-- Claim C4, witness: two identical concrete calls. -/
theorem c4_witness :
    (Graph.mk [0, 1] [0] none none).partition zeroEngine 2 (0 : Int) true 1234 Mode.Eco =
      (Graph.mk [0, 1] [0] none none).partition zeroEngine 2 (0 : Int) true 1234 Mode.Eco :=
  c4_partition_deterministic zeroEngine (Graph.mk [0, 1] [0] none none)
    (Graph.mk [0, 1] [0] none none) 2 2 0 0 true true 1234 1234 Mode.Eco Mode.Eco
    rfl rfl rfl rfl rfl rfl

/-- Claim C7: the wrapper discards whatever the engine leaves in the local
`n_parts` and `imbalance` cells — two engines that agree on the part buffer
and the edge cut, however much they differ in the adjustments they write
back, produce identical `partition` results. -/
theorem c7_adjustments_discarded {Fl : Type} (e1 e2 : KaffpaEngine Fl)
    (g : Graph) (np : Int) (im : Fl) (so : Bool) (sd : Int) (m : Mode)
    (hpart : ∀ c, (e1.run c).partWrites = (e2.run c).partWrites)
    (hcut : ∀ c, (e1.run c).edgecut = (e2.run c).edgecut) :
    g.partition e1 np im so sd m = g.partition e2 np im so sd m := by
  have h1 : g.partition e1 np im so sd m =
      (writeBuf (List.replicate (g.xadj.length - 1) 0)
        ((e1.run (g.kaffpaCall np im so sd m)).partWrites),
       (e1.run (g.kaffpaCall np im so sd m)).edgecut) := rfl
  have h2 : g.partition e2 np im so sd m =
      (writeBuf (List.replicate (g.xadj.length - 1) 0)
        ((e2.run (g.kaffpaCall np im so sd m)).partWrites),
       (e2.run (g.kaffpaCall np im so sd m)).edgecut) := rfl
  rw [h1, h2, hpart, hcut]

/-- Claim C7, witness: `zeroEngine` and `shiftEngine` agree on part
assignment and edge cut but write different adjustments; `partition` does
not see the difference. -/
theorem c7_witness :
    (∀ c, (zeroEngine.run c).partWrites = (shiftEngine.run c).partWrites) ∧
    (∀ c, (zeroEngine.run c).edgecut = (shiftEngine.run c).edgecut) ∧
    (Graph.mk [0, 1] [0] none none).partition zeroEngine 2 (0 : Int) true 1 Mode.Fast =
      (Graph.mk [0, 1] [0] none none).partition shiftEngine 2 (0 : Int) true 1 Mode.Fast :=
  ⟨fun _ => rfl, fun _ => rfl,
    c7_adjustments_discarded zeroEngine shiftEngine (Graph.mk [0, 1] [0] none none)
      2 0 true 1 Mode.Fast (fun _ => rfl) (fun _ => rfl)⟩

/-- Claim C8: the marshalled vertex-weight argument is the null pointer
exactly when no `vwgt` buffer is attached, and likewise for `adjwgt`; when
a buffer is attached, that very buffer is what is passed. -/
theorem c8_null_iff_absent {Fl : Type} (g : Graph) (np : Int) (im : Fl)
    (so : Bool) (sd : Int) (m : Mode) :
    (g.kaffpaCall np im so sd m).vwgt = g.vwgt ∧
    (g.kaffpaCall np im so sd m).adjwgt = g.adjwgt ∧
    ((g.kaffpaCall np im so sd m).vwgt = none ↔ g.vwgt = none) ∧
    ((g.kaffpaCall np im so sd m).adjwgt = none ↔ g.adjwgt = none) :=
  ⟨rfl, rfl, Iff.rfl, Iff.rfl⟩

/-- Claim C9: every graph a client can hold — produced by `Graph::new`
from real `c_int` slices and possibly refined by the setters — satisfies
the structural invariant that guards the foreign call: `xadj` non-empty,
`adjncy` of length equal to `xadj`'s last element, any attached `vwgt` of
length `xadj.len() - 1`, and any attached `adjwgt` of length equal to
`xadj`'s last element. -/
theorem c9_reachable_wf (g : Graph) (hg : Graph.Reachable g) : Graph.WF g := by
  induction hg with
  | new xadj adjncy g0 hx ha hnew =>
    obtain ⟨hne, hgeq, last, hlast, hcond⟩ := new_some_elim xadj adjncy g0 hnew
    subst hgeq
    have hio := sliceOk_getLast xadj last hx hlast
    have hcast : (adjncy.length : Int) = last :=
      (usizeOfIdx_eq_iff last adjncy.length hio ha.2).mp hcond
    refine ⟨hne, ?_, ?_, ?_⟩
    · show xadj.getLast? = some ((adjncy.length : Int))
      rw [hlast, hcast]
    · intro w hw
      exact Option.noConfusion hw
    · intro w hw
      exact Option.noConfusion hw
  | vwgt g1 g2 w hr hset ih =>
    obtain ⟨hlen, hg2⟩ := set_vwgt_some_elim g1 g2 w hset
    subst hg2
    obtain ⟨ih1, ih2, ih3, ih4⟩ := ih
    refine ⟨ih1, ih2, ?_, ih4⟩
    intro w2 hw2
    injection hw2 with hw2
    subst hw2
    exact hlen
  | adjwgt g1 g2 w hr hset ih =>
    obtain ⟨⟨last, hlast, hpos, hlen⟩, hg2⟩ := set_adjwgt_some_elim g1 g2 w hset
    subst hg2
    obtain ⟨ih1, ih2, ih3, ih4⟩ := ih
    refine ⟨ih1, ih2, ih3, ?_⟩
    intro w2 hw2
    injection hw2 with hw2
    subst hw2
    rw [ih2] at hlast
    injection hlast with hlast
    show w.length = g1.adjncy.length
    omega

/-- Claim C9, witness: a concrete graph built by `new` followed by both
setters satisfies the invariant. -/
theorem c9_witness :
    Graph.WF (Graph.mk [0, 1, 2] [1, 0] (some [5, 7]) (some [3, 3])) := by
  have h0 : Graph.Reachable (Graph.mk [0, 1, 2] [1, 0] none none) :=
    Graph.Reachable.new [0, 1, 2] [1, 0] (Graph.mk [0, 1, 2] [1, 0] none none)
      (by decide) (by decide) (by decide)
  have h1 : Graph.Reachable (Graph.mk [0, 1, 2] [1, 0] (some [5, 7]) none) :=
    Graph.Reachable.vwgt (Graph.mk [0, 1, 2] [1, 0] none none)
      (Graph.mk [0, 1, 2] [1, 0] (some [5, 7]) none) [5, 7] h0 (by decide)
  have h2 : Graph.Reachable (Graph.mk [0, 1, 2] [1, 0] (some [5, 7]) (some [3, 3])) :=
    Graph.Reachable.adjwgt (Graph.mk [0, 1, 2] [1, 0] (some [5, 7]) none)
      (Graph.mk [0, 1, 2] [1, 0] (some [5, 7]) (some [3, 3])) [3, 3] h1 (by decide)
  exact c9_reachable_wf (Graph.mk [0, 1, 2] [1, 0] (some [5, 7]) (some [3, 3])) h2

/-- Claim C10: a freshly constructed graph has both weight slots absent,
so a `partition` call on it marshals null pointers for both weight
arrays (uniform weights). -/
theorem c10_new_weights_absent {Fl : Type} (xadj adjncy : List Int)
    (g : Graph) (hg : Graph.new xadj adjncy = some g) (np : Int) (im : Fl)
    (so : Bool) (sd : Int) (m : Mode) :
    g.vwgt = none ∧ g.adjwgt = none ∧
    (g.kaffpaCall np im so sd m).vwgt = none ∧
    (g.kaffpaCall np im so sd m).adjwgt = none := by
  obtain ⟨hne, hgeq, _⟩ := new_some_elim xadj adjncy g hg
  subst hgeq
  exact ⟨rfl, rfl, rfl, rfl⟩

/-- Claim C10, witness: instantiated on a concrete construction. -/
theorem c10_witness :
    (Graph.mk [0, 1] [0] none none).vwgt = none ∧
    (Graph.mk [0, 1] [0] none none).adjwgt = none ∧
    ((Graph.mk [0, 1] [0] none none).kaffpaCall 2 (0 : Int) true 1 Mode.Eco).vwgt = none ∧
    ((Graph.mk [0, 1] [0] none none).kaffpaCall 2 (0 : Int) true 1 Mode.Eco).adjwgt = none :=
  c10_new_weights_absent [0, 1] [0] (Graph.mk [0, 1] [0] none none) (by decide)
    2 0 true 1 Mode.Eco
